import Mathlib

/-!
Verification of the CVE ingestion pipeline (`ingest_cves.py`, `classification.py`,
`settings.py`, `utils/backfill_cpe_from_raw.py`) against its specification.

Shallow embedding conventions:
* Python strings are Lean `String`s; character-level loops run over `String.data`.
* Python `datetime`/`timedelta` values are modelled as integers counting hours
  (`timedelta(days=d)` is `24*d` hours, `timedelta(hours=1)` is `1`), which is exact
  for every duration the program builds; ISO timestamp *strings* stay strings.
* Python generators are modelled with explicit fuel: a fuel-indexed function that
  returns `none` when the fuel runs out before the generator is exhausted, plus a
  trace function giving the first `n` yielded elements.
* Python dicts used as JSON documents become structures with `Option` fields where
  the code uses `.get` with a `None`/falsy default; `dict` used as an ordered map
  (`parsed_by_criteria`) becomes an insertion-ordered association list.
* Fallible code returns `Option`/`Except`; database state is passed explicitly.
-/

/-- The whitespace characters stripped by Python `str.strip()`. -/
def isPySpace (c : Char) : Bool :=
  c = ' ' || c = '\t' || c = '\n' || c = '\r' || c = '\x0b' || c = '\x0c'

/-- Python `str.strip()`: remove leading and trailing whitespace. -/
def pyStrip (s : String) : String :=
  ⟨((s.data.dropWhile isPySpace).reverse.dropWhile isPySpace).reverse⟩

/-- Python `str.lower()` (ASCII case fold, which is all the code relies on). -/
def pyLower (s : String) : String :=
  ⟨s.data.map Char.toLower⟩

/-- Truthiness of a Python string: falsy iff empty. -/
def pyTruthyStr (s : String) : Bool := s ≠ ""

/-- Python `str.startswith` (character-level, so that proofs can evaluate it). -/
def pyStartsWith (s pre : String) : Bool := pre.data.isPrefixOf s.data

/-- Loop body of `split_cpe23` (ingest_cves.py:95-115): `parts`, `current`, `escaped`
are the three loop variables; the final `parts.append("".join(current))` is the
`[]` case. -/
def splitCpe23Go : List Char → List String → List Char → Bool → List String
  | [], parts, current, _ => parts ++ [String.mk current]
  | ch :: rest, parts, current, escaped =>
    if escaped then splitCpe23Go rest parts (current ++ [ch]) false
    else if ch = '\\' then splitCpe23Go rest parts current true
    else if ch = ':' then splitCpe23Go rest (parts ++ [String.mk current]) [] false
    else splitCpe23Go rest parts (current ++ [ch]) false

/-- `split_cpe23` (ingest_cves.py:95-115, identical copy in
utils/backfill_cpe_from_raw.py:12-32): escape-aware split on `:` where a
backslash escapes the following character. -/
def split_cpe23 (criteria : String) : List String :=
  splitCpe23Go criteria.data [] [] false

/-- `parse_cpe23` (ingest_cves.py:118-132, identical copy in
utils/backfill_cpe_from_raw.py:35-48). -/
def parse_cpe23 (criteria : String) : Option (String × String × String × String) :=
  if pyStartsWith criteria "cpe:2.3:" = false then none
  else
    let parts := split_cpe23 criteria
    if parts.length < 6 then none
    else
      let part := pyStrip (parts.getD 2 "")
      let vendor := pyLower (pyStrip (parts.getD 3 ""))
      let product := pyLower (pyStrip (parts.getD 4 ""))
      let version := pyStrip (parts.getD 5 "")
      if part = "" ∨ vendor = "" ∨ product = "" then none
      else some (part, vendor, product, version)

/-- C1 (counterexample): the identifier string `a:b\:c:d:e:f` does NOT split into
6 fields with third field `b:c`: the escape-aware splitter returns 5 fields. -/
theorem split_cpe23_example_refuted :
    ¬ ((split_cpe23 "a:b\\:c:d:e:f").length = 6 ∧
       (split_cpe23 "a:b\\:c:d:e:f").getD 2 "" = "b:c") := by
  decide

/-- C1 (amended): tokenizing `a:b\:c:d:e:f` with `split_cpe23` yields exactly
5 fields, `["a", "b:c", "d", "e", "f"]`, and the second field is literally `b:c`:
the escaped colon is kept inside the field rather than acting as a separator. -/
theorem split_cpe23_example :
    split_cpe23 "a:b\\:c:d:e:f" = ["a", "b:c", "d", "e", "f"] ∧
    (split_cpe23 "a:b\\:c:d:e:f").length = 5 ∧
    (split_cpe23 "a:b\\:c:d:e:f").getD 1 "" = "b:c" := by
  decide

/-- C9: every criteria string that does not begin with `cpe:2.3:` is rejected by
`parse_cpe23` (returns `none`), even when — as for `x:2.3:a:o:h:1:2:3` — it
tokenizes into at least 6 fields with non-empty part, vendor and product. -/
theorem parse_cpe23_requires_literal_prefix :
    (∀ s : String, pyStartsWith s "cpe:2.3:" = false → parse_cpe23 s = none) ∧
    (6 ≤ (split_cpe23 "x:2.3:a:o:h:1:2:3").length ∧
     pyStrip ((split_cpe23 "x:2.3:a:o:h:1:2:3").getD 2 "") ≠ "" ∧
     pyLower (pyStrip ((split_cpe23 "x:2.3:a:o:h:1:2:3").getD 3 "")) ≠ "" ∧
     pyLower (pyStrip ((split_cpe23 "x:2.3:a:o:h:1:2:3").getD 4 "")) ≠ "" ∧
     parse_cpe23 "x:2.3:a:o:h:1:2:3" = none) := by
  constructor
  · intro s h
    simp [parse_cpe23, h]
  · decide

/-- Witness for C9 at the concrete input `x:2.3:a:o:h:1:2:3`. -/
theorem parse_cpe23_requires_literal_prefix_witness :
    parse_cpe23 "x:2.3:a:o:h:1:2:3" = none :=
  parse_cpe23_requires_literal_prefix.1 "x:2.3:a:o:h:1:2:3" (by decide)

/-- Word characters for the regex `\b` boundary (ASCII `\w`: letters, digits, `_`). -/
def isWordChar (c : Char) : Bool := c.isAlphanum || c = '_'

/-- Whether the head of the list is a word character (end of string is a boundary). -/
def headIsWordChar : List Char → Bool
  | [] => false
  | c :: _ => isWordChar c

/-- If the list starts with the literal `rce`, return the remainder after it. -/
def matchRceAt : List Char → Option (List Char)
  | 'r' :: 'c' :: 'e' :: rest => some rest
  | _ => none

/-- `re.search(r"\brce\b", text)` (classification.py:26): scan for the literal
`rce` with a word boundary on each side. `prevIsWord` records whether the
character before the current position is a word character. -/
def hasWordRce (prevIsWord : Bool) : List Char → Bool
  | [] => false
  | c :: rest =>
    (match matchRceAt (c :: rest) with
     | some after => !prevIsWord && !headIsWordChar after
     | none => false) || hasWordRce (isWordChar c) rest

/-- Python `needle in hay` substring containment on character lists. -/
def listContainsSub (needle : List Char) : List Char → Bool
  | [] => needle.isEmpty
  | c :: rest => needle.isPrefixOf (c :: rest) || listContainsSub needle rest

/-- `IMPACT_CLASSIFICATION_VERSION` (classification.py:5). -/
def IMPACT_CLASSIFICATION_VERSION : String := "v1"

/-- The ordered rule list of `classify_impact_type` (classification.py:29-50). -/
def impactRules : List (String × String) :=
  [("remote code execution", "Remote Code Execution"),
   ("authentication bypass", "Authentication Bypass"),
   ("auth bypass", "Authentication Bypass"),
   ("privilege escalation", "Privilege Escalation"),
   ("sql injection", "SQL Injection"),
   ("command injection", "Command Injection"),
   ("code injection", "Code Injection"),
   ("cross-site scripting", "Cross-Site Scripting"),
   ("xss", "Cross-Site Scripting"),
   ("path traversal", "Path Traversal"),
   ("directory traversal", "Path Traversal"),
   ("ssrf", "Server-Side Request Forgery"),
   ("request forgery", "Server-Side Request Forgery"),
   ("deserialization", "Insecure Deserialization"),
   ("denial of service", "Denial of Service"),
   ("dos", "Denial of Service"),
   ("information disclosure", "Information Disclosure"),
   ("out-of-bounds", "Memory Corruption"),
   ("buffer overflow", "Memory Corruption"),
   ("use-after-free", "Memory Corruption")]

/-- `classify_impact_type` (classification.py:24-54). -/
def classify_impact_type (description : String) : String :=
  let text := pyLower description
  if hasWordRce false text.data then "Remote Code Execution"
  else
    match impactRules.find? (fun rule => listContainsSub rule.1.data text.data) with
    | some rule => rule.2
    | none => "Other"

/-- C7: `classify_impact_type` case-folds the text, returns Remote Code Execution
whenever the whole word `rce` matches (regardless of other keywords — in
particular on "Remote buffer overflow leads to RCE via injection"), otherwise
returns the category of the first matching substring rule of the fixed ordered
list, and returns "Other" when no rule matches — in particular on "". -/
theorem classify_impact_type_spec :
    (∀ d : String, hasWordRce false (pyLower d).data = true →
      classify_impact_type d = "Remote Code Execution") ∧
    (∀ d : String, ∀ rule ∈ impactRules, hasWordRce false (pyLower d).data = false →
      impactRules.find? (fun r => listContainsSub r.1.data (pyLower d).data) = some rule →
      classify_impact_type d = rule.2) ∧
    (∀ d : String, hasWordRce false (pyLower d).data = false →
      impactRules.find? (fun r => listContainsSub r.1.data (pyLower d).data) = none →
      classify_impact_type d = "Other") ∧
    classify_impact_type "Remote buffer overflow leads to RCE via injection" =
      "Remote Code Execution" ∧
    classify_impact_type "" = "Other" := by
  refine ⟨?_, ?_, ?_, ?_, ?_⟩
  · intro d h
    simp [classify_impact_type, h]
  · intro d rule _hmem h hfind
    simp [classify_impact_type, h, hfind]
  · intro d h hfind
    simp [classify_impact_type, h, hfind]
  · decide
  · decide

/-- Witness for C7: the whole-word branch fires on a concrete description with a
competing keyword, and the first-matching-rule branch fires on "sql injection". -/
theorem classify_impact_type_spec_witness :
    classify_impact_type "rce and buffer overflow" = "Remote Code Execution" ∧
    classify_impact_type "a sql injection bug" = "SQL Injection" :=
  ⟨classify_impact_type_spec.1 "rce and buffer overflow" (by decide),
   classify_impact_type_spec.2.1 "a sql injection bug"
     ("sql injection", "SQL Injection") (by decide) (by decide) (by decide)⟩

/-- Python `a or b` on optional strings: `None` and `""` are falsy. -/
def pyOrStr (a b : Option String) : Option String :=
  match a with
  | some s => if s = "" then b else some s
  | none => b

/-- The `cvssData` sub-dict of one metric entry (`metric.get("cvssData", {})`):
an absent dict behaves like one whose lookups all return `None`. -/
structure CvssData where
  baseScore : Option ℚ
  baseSeverity : Option String
deriving DecidableEq

/-- One entry of a CVSS metric bucket. -/
structure MetricItem where
  cvssData : CvssData
  baseSeverity : Option String
deriving DecidableEq

/-- `cve.get("metrics", {})`: the three metric buckets, `metrics.get(key) or []`
conflating an absent or null bucket with an empty one. -/
structure Metrics where
  cvssMetricV31 : List MetricItem
  cvssMetricV30 : List MetricItem
  cvssMetricV2 : List MetricItem
deriving DecidableEq

/-- One `cpeMatch` entry of a configuration node:
`match.get("criteria", "")` and `bool(match.get("vulnerable", False))`. -/
structure CpeMatchEntry where
  criteria : String
  vulnerable : Bool
deriving DecidableEq

/-- One configuration node: a list of direct match entries and a list of child
nodes of the same shape (`node.get("cpeMatch") or []`, `node.get("children") or []`). -/
inductive ConfigNode where
  | mk (cpeMatch : List CpeMatchEntry) (children : List ConfigNode)

/-- The direct match entries of a node. -/
def ConfigNode.cpeMatch : ConfigNode → List CpeMatchEntry
  | .mk m _ => m

/-- The child nodes of a node. -/
def ConfigNode.children : ConfigNode → List ConfigNode
  | .mk _ c => c

/-- One top-level configuration group (`config.get("nodes") or []`). -/
structure Configuration where
  nodes : List ConfigNode

/-- One entry of the `descriptions` list. -/
structure DescriptionEntry where
  lang : String
  value : String
deriving DecidableEq

/-- One raw source document's `cve` object, with the fields the pipeline reads.
`id` and `sourceIdentifier` use `.get` (absent is `none`); `published` and
`lastModified` are accessed with `cve["published"]`/`cve["lastModified"]`, so the
model makes them required fields (a document missing them fails the run before
reaching the persistence step). -/
structure CveDoc where
  id : Option String
  published : String
  lastModified : String
  sourceIdentifier : Option String
  metrics : Metrics
  descriptions : List DescriptionEntry
  configurations : List Configuration

/-- The bucket scan of `extract_cvss` (ingest_cves.py:73-81): take the first
non-empty bucket's first item. -/
def extractCvssGo : List (List MetricItem × String) → Option ℚ × Option String × Option String
  | [] => (none, none, none)
  | (items, version) :: rest =>
    match items with
    | [] => extractCvssGo rest
    | metric :: _ =>
      (metric.cvssData.baseScore, some version,
       pyOrStr metric.cvssData.baseSeverity metric.baseSeverity)

/-- `extract_cvss` (ingest_cves.py:71-82). -/
def extract_cvss (cve : CveDoc) : Option ℚ × Option String × Option String :=
  extractCvssGo
    [(cve.metrics.cvssMetricV31, "3.1"),
     (cve.metrics.cvssMetricV30, "3.0"),
     (cve.metrics.cvssMetricV2, "2.0")]

/-- C8: `extract_cvss` scans the metric buckets in priority order v3.1, v3.0,
v2.0 and returns the first non-empty bucket's base score, version tag and
severity (falling back to the metric-level severity when the cvssData-level one
is absent); when every bucket is empty it returns `(none, none, none)` — never
combining data across versions. -/
theorem extract_cvss_priority :
    (∀ (cve : CveDoc) (m : MetricItem) (rest : List MetricItem),
      cve.metrics.cvssMetricV31 = m :: rest →
      extract_cvss cve =
        (m.cvssData.baseScore, some "3.1", pyOrStr m.cvssData.baseSeverity m.baseSeverity)) ∧
    (∀ (cve : CveDoc) (m : MetricItem) (rest : List MetricItem),
      cve.metrics.cvssMetricV31 = [] → cve.metrics.cvssMetricV30 = m :: rest →
      extract_cvss cve =
        (m.cvssData.baseScore, some "3.0", pyOrStr m.cvssData.baseSeverity m.baseSeverity)) ∧
    (∀ (cve : CveDoc) (m : MetricItem) (rest : List MetricItem),
      cve.metrics.cvssMetricV31 = [] → cve.metrics.cvssMetricV30 = [] →
      cve.metrics.cvssMetricV2 = m :: rest →
      extract_cvss cve =
        (m.cvssData.baseScore, some "2.0", pyOrStr m.cvssData.baseSeverity m.baseSeverity)) ∧
    (∀ cve : CveDoc,
      cve.metrics.cvssMetricV31 = [] → cve.metrics.cvssMetricV30 = [] →
      cve.metrics.cvssMetricV2 = [] → extract_cvss cve = (none, none, none)) ∧
    (∀ (cve : CveDoc) (m : MetricItem) (rest : List MetricItem),
      cve.metrics.cvssMetricV31 = m :: rest → m.cvssData.baseSeverity = none →
      (extract_cvss cve).2.2 = m.baseSeverity) := by
  refine ⟨?_, ?_, ?_, ?_, ?_⟩
  · intro cve m rest h
    simp [extract_cvss, extractCvssGo, h]
  · intro cve m rest h31 h30
    simp [extract_cvss, extractCvssGo, h31, h30]
  · intro cve m rest h31 h30 h2
    simp [extract_cvss, extractCvssGo, h31, h30, h2]
  · intro cve h31 h30 h2
    simp [extract_cvss, extractCvssGo, h31, h30, h2]
  · intro cve m rest h31 hsev
    simp [extract_cvss, extractCvssGo, h31, hsev, pyOrStr]

/-- Witness for C8: a document with an empty v3.1 bucket and a v3.0 entry whose
cvssData has no severity picks the v3.0 score with the metric-level severity. -/
theorem extract_cvss_priority_witness :
    extract_cvss
      { id := some "CVE-2024-0001", published := "2024-01-01T00:00:00.000",
        lastModified := "2024-01-02T00:00:00.000", sourceIdentifier := none,
        metrics :=
          { cvssMetricV31 := [],
            cvssMetricV30 :=
              [{ cvssData := { baseScore := some 5, baseSeverity := none },
                 baseSeverity := some "MEDIUM" }],
            cvssMetricV2 :=
              [{ cvssData := { baseScore := some 3, baseSeverity := some "LOW" },
                 baseSeverity := none }] },
        descriptions := [], configurations := [] } =
      (some 5, some "3.0", some "MEDIUM") :=
  extract_cvss_priority.2.1 _
    { cvssData := { baseScore := some 5, baseSeverity := none },
      baseSeverity := some "MEDIUM" } [] rfl rfl

/-- `timedelta(days=d)`, in the hour-counting time model. -/
def timedeltaDays (d : ℤ) : ℤ := 24 * d

/-- `timedelta(hours=h)`, in the hour-counting time model. -/
def timedeltaHours (h : ℤ) : ℤ := h

/-- The instant "day `n`" (midnight of day `n`), in the hour-counting time model. -/
def dayInstant (n : ℤ) : ℤ := 24 * n

/-- The loop of `chunk_ranges` (ingest_cves.py:51-57) with explicit fuel: one
unit of fuel per yielded window, `none` when the fuel runs out while the
generator is still running (`cursor < end`). -/
def chunkRangesGo : ℕ → ℤ → ℤ → ℤ → Option (List (ℤ × ℤ))
  | 0, cursor, e, _ => if cursor < e then none else some []
  | fuel + 1, cursor, e, delta =>
    if cursor < e then
      (chunkRangesGo fuel (min (cursor + delta) e) e delta).map
        (fun rest => (cursor, min (cursor + delta) e) :: rest)
    else some []

/-- The first `fuel` windows yielded by the `chunk_ranges` generator (its
observable trace, defined even when the generator never terminates). -/
def chunkRangesTrace : ℕ → ℤ → ℤ → ℤ → List (ℤ × ℤ)
  | 0, _, _, _ => []
  | fuel + 1, cursor, e, delta =>
    if cursor < e then
      (cursor, min (cursor + delta) e) :: chunkRangesTrace fuel (min (cursor + delta) e) e delta
    else []

/-- `chunk_ranges(start, end, days)` (ingest_cves.py:51-57):
`delta = timedelta(days=days)`; the fuel `(end - start)` in hours bounds the
window count whenever `days ≥ 1` (each window advances the cursor by at least
one hour). -/
def chunk_ranges (start e days : ℤ) : Option (List (ℤ × ℤ)) :=
  chunkRangesGo (e - start).toNat start e (timedeltaDays days)

/-- The windows form the exact chain the loop produces from cursor `c`:
each window starts at the cursor, ends at `min (cursor + delta) e`, and the
list ends exactly when the cursor reaches `e`. -/
def windowsChainB (e delta : ℤ) : ℤ → List (ℤ × ℤ) → Bool
  | c, [] => decide (e ≤ c)
  | c, (a, b) :: rest =>
    decide (c < e) && decide (a = c) && decide (b = min (c + delta) e) &&
      windowsChainB e delta b rest

theorem chunkRangesGo_chain (e delta : ℤ) :
    ∀ (fuel : ℕ) (c : ℤ) (ws : List (ℤ × ℤ)),
      chunkRangesGo fuel c e delta = some ws → windowsChainB e delta c ws = true := by
  intro fuel
  induction fuel with
  | zero =>
    intro c ws h
    by_cases hc : c < e
    · simp [chunkRangesGo, hc] at h
    · simp [chunkRangesGo, hc] at h
      subst h
      simp [windowsChainB]
      omega
  | succ n ih =>
    intro c ws h
    by_cases hc : c < e
    · simp [chunkRangesGo, hc, Option.map_eq_some'] at h
      obtain ⟨rest, hrest, hws⟩ := h
      subst hws
      simp [windowsChainB, hc]
      exact ih _ _ hrest
    · simp [chunkRangesGo, hc] at h
      subst h
      simp [windowsChainB]
      omega

theorem chunkRangesGo_isSome (e delta : ℤ) (hdelta : 1 ≤ delta) :
    ∀ (fuel : ℕ) (c : ℤ), (e - c).toNat ≤ fuel →
      (chunkRangesGo fuel c e delta).isSome = true := by
  intro fuel
  induction fuel with
  | zero =>
    intro c hle
    have : ¬ c < e := by omega
    simp [chunkRangesGo, this]
  | succ n ih =>
    intro c hle
    by_cases hc : c < e
    · have hrec : (e - min (c + delta) e).toNat ≤ n := by omega
      simp [chunkRangesGo, hc]
      exact ih _ hrec
    · simp [chunkRangesGo, hc]

theorem windowsChainB_coverage (e delta : ℤ) :
    ∀ (ws : List (ℤ × ℤ)) (c : ℤ), windowsChainB e delta c ws = true →
      ∀ t : ℤ, c ≤ t → t < e → ∃ w ∈ ws, w.1 ≤ t ∧ t < w.2 := by
  intro ws
  induction ws with
  | nil =>
    intro c h t htc hte
    simp [windowsChainB] at h
    omega
  | cons w rest ih =>
    obtain ⟨a, b⟩ := w
    intro c h t htc hte
    simp only [windowsChainB, Bool.and_eq_true, decide_eq_true_eq] at h
    obtain ⟨⟨⟨hce, hac⟩, hb⟩, hrest⟩ := h
    by_cases htb : t < b
    · exact ⟨(a, b), List.mem_cons_self _ _, by omega, htb⟩
    · obtain ⟨w, hw, h1, h2⟩ := ih b hrest t (by omega) hte
      exact ⟨w, List.mem_cons_of_mem _ hw, h1, h2⟩

theorem windowsChainB_bounds (e delta : ℤ) (hdelta : 1 ≤ delta) :
    ∀ (ws : List (ℤ × ℤ)) (c : ℤ), windowsChainB e delta c ws = true →
      ∀ w ∈ ws, w.1 < w.2 ∧ w.2 = min (w.1 + delta) e := by
  intro ws
  induction ws with
  | nil => intro c _ w hw; simp at hw
  | cons hd rest ih =>
    obtain ⟨a, b⟩ := hd
    intro c h w hw
    simp only [windowsChainB, Bool.and_eq_true, decide_eq_true_eq] at h
    obtain ⟨⟨⟨hce, hac⟩, hb⟩, hrest⟩ := h
    rcases List.mem_cons.mp hw with heq | hmem
    · subst heq
      constructor
      · omega
      · rw [hb, hac]
    · exact ih b hrest w hmem

theorem windowsChainB_adjacent (e delta : ℤ) :
    ∀ (ws : List (ℤ × ℤ)) (c : ℤ), windowsChainB e delta c ws = true →
      List.Chain' (fun w₁ w₂ : ℤ × ℤ => w₁.2 = w₂.1) ws := by
  intro ws
  induction ws with
  | nil => intro c _; simp
  | cons hd rest ih =>
    obtain ⟨a, b⟩ := hd
    intro c h
    simp only [windowsChainB, Bool.and_eq_true, decide_eq_true_eq] at h
    obtain ⟨⟨⟨hce, hac⟩, hb⟩, hrest⟩ := h
    cases rest with
    | nil => simp
    | cons hd2 rest2 =>
      obtain ⟨a2, b2⟩ := hd2
      refine List.Chain'.cons ?_ (ih b hrest)
      simp only [windowsChainB, Bool.and_eq_true, decide_eq_true_eq] at hrest
      omega

/-- The coverage contract of the window planner: the chain invariant holds from
`start`, adjacent windows share their boundary (no gaps, no overlaps), every
window is non-empty with end `min (start + size) e`, and every instant of
`[start, e)` lies in some window. -/
def windowsCover (start e days : ℤ) (ws : List (ℤ × ℤ)) : Prop :=
  windowsChainB e (timedeltaDays days) start ws = true ∧
  List.Chain' (fun w₁ w₂ : ℤ × ℤ => w₁.2 = w₂.1) ws ∧
  (∀ w ∈ ws, w.1 < w.2 ∧ w.2 = min (w.1 + timedeltaDays days) e) ∧
  (∀ t : ℤ, start ≤ t → t < e → ∃ w ∈ ws, w.1 ≤ t ∧ t < w.2)

/-- C4: for every `start < end` and positive window size in days, `chunk_ranges`
yields a finite ordered sequence of half-open windows covering `[start, end)`
with no gaps and no overlaps, each window's end being `min (cursor + size, end)`;
planning day 0 to day 10 with size 4 yields exactly `[0,4), [4,8), [8,10)`. -/
theorem chunk_ranges_coverage :
    (∀ start e days : ℤ, start < e → 1 ≤ days →
      ∃ ws, chunk_ranges start e days = some ws ∧ windowsCover start e days ws) ∧
    chunk_ranges (dayInstant 0) (dayInstant 10) 4 =
      some [(dayInstant 0, dayInstant 4), (dayInstant 4, dayInstant 8),
            (dayInstant 8, dayInstant 10)] := by
  constructor
  · intro start e days hlt hdays
    have hdelta : 1 ≤ timedeltaDays days := by simp [timedeltaDays]; omega
    have hsome := chunkRangesGo_isSome e (timedeltaDays days) hdelta
      (e - start).toNat start (le_refl _)
    obtain ⟨ws, hws⟩ := Option.isSome_iff_exists.mp hsome
    have hchain := chunkRangesGo_chain e (timedeltaDays days) _ _ _ hws
    exact ⟨ws, hws, hchain, windowsChainB_adjacent _ _ _ _ hchain,
      windowsChainB_bounds _ _ hdelta _ _ hchain,
      windowsChainB_coverage _ _ _ _ hchain⟩
  · decide

/-- Witness for C4 at start = day 0, end = day 10, size 4 days. -/
theorem chunk_ranges_coverage_witness :
    ∃ ws, chunk_ranges 0 240 4 = some ws ∧ windowsCover 0 240 4 ws :=
  chunk_ranges_coverage.1 0 240 4 (by decide) (by decide)

/-- Decimal digit accumulator for `int(raw)`. -/
def pyDigitsGo (acc : ℕ) : List Char → Option ℕ
  | [] => some acc
  | c :: rest => if c.isDigit then pyDigitsGo (acc * 10 + (c.toNat - 48)) rest else none

/-- Python `int(raw)` on an already-stripped string: optional sign followed by at
least one decimal digit (the only shapes the settings file can supply). -/
def pyInt? (s : String) : Option ℤ :=
  match s.data with
  | [] => none
  | '-' :: rest => if rest.isEmpty then none else (pyDigitsGo 0 rest).map (fun n => -(n : ℤ))
  | '+' :: rest => if rest.isEmpty then none else (pyDigitsGo 0 rest).map (fun n => (n : ℤ))
  | l => (pyDigitsGo 0 l).map (fun n => (n : ℤ))

/-- `_get_int` (settings.py:41-48): the config is a string-keyed map; an absent
or blank value yields the default, a non-integer value raises `ValueError`. -/
def _get_int (config : String → Option String) (key : String) (default : ℤ) :
    Except String ℤ :=
  let raw := pyStrip ((config key).getD "")
  if raw = "" then .ok default
  else
    match pyInt? raw with
    | some n => .ok n
    | none => .error ("Invalid integer setting " ++ key ++ ": " ++ raw)

theorem chunkRangesGo_zero_delta_none (start e : ℤ) (h : start < e) :
    ∀ fuel : ℕ, chunkRangesGo fuel start e 0 = none := by
  intro fuel
  induction fuel with
  | zero => simp [chunkRangesGo, h]
  | succ n ih =>
    have hmin : start ⊓ e = start := min_eq_left (le_of_lt h)
    simp [chunkRangesGo, h, hmin, ih]

theorem chunkRangesTrace_zero_delta (start e : ℤ) (h : start < e) :
    ∀ fuel : ℕ, chunkRangesTrace fuel start e 0 = List.replicate fuel (start, start) := by
  intro fuel
  induction fuel with
  | zero => simp [chunkRangesTrace]
  | succ n ih =>
    have hmin : start ⊓ e = start := min_eq_left (le_of_lt h)
    simp [chunkRangesTrace, h, hmin, ih, List.replicate_succ]

/-- C10: the window planner terminates for every `start < end` when the window
size is at least 1 day, but with size 0 — a value `_get_int` accepts for
`INCREMENTAL_WINDOW_DAYS` — it loops forever, yielding the empty window
`[start, start)` at every step and never finishing under any fuel. -/
theorem chunk_ranges_zero_days_diverges :
    (∀ start e days : ℤ, start < e → 1 ≤ days →
      (chunk_ranges start e days).isSome = true) ∧
    (∀ start e : ℤ, start < e →
      ∀ fuel : ℕ, chunkRangesGo fuel start e (timedeltaDays 0) = none) ∧
    (∀ start e : ℤ, start < e →
      ∀ fuel : ℕ, chunkRangesTrace fuel start e (timedeltaDays 0) =
        List.replicate fuel (start, start)) ∧
    _get_int (fun k => if k = "INCREMENTAL_WINDOW_DAYS" then some "0" else none)
      "INCREMENTAL_WINDOW_DAYS" 14 = .ok 0 := by
  refine ⟨?_, ?_, ?_, rfl⟩
  · intro start e days hlt hdays
    have hdelta : 1 ≤ timedeltaDays days := by simp [timedeltaDays]; omega
    exact chunkRangesGo_isSome e (timedeltaDays days) hdelta _ start (le_refl _)
  · intro start e h fuel
    have : timedeltaDays 0 = 0 := by simp [timedeltaDays]
    rw [this]
    exact chunkRangesGo_zero_delta_none start e h fuel
  · intro start e h fuel
    have : timedeltaDays 0 = 0 := by simp [timedeltaDays]
    rw [this]
    exact chunkRangesTrace_zero_delta start e h fuel

/-- Witness for C10 at start 0, end one day later, and fuel 3: termination with
size 1, divergence and the constant empty-window trace with size 0. -/
theorem chunk_ranges_zero_days_diverges_witness :
    (chunk_ranges 0 24 1).isSome = true ∧
    chunkRangesGo 3 0 24 (timedeltaDays 0) = none ∧
    chunkRangesTrace 3 0 24 (timedeltaDays 0) = List.replicate 3 (0, 0) :=
  ⟨chunk_ranges_zero_days_diverges.1 0 24 1 (by decide) (by decide),
   chunk_ranges_zero_days_diverges.2.1 0 24 (by decide) 3,
   chunk_ranges_zero_days_diverges.2.2.1 0 24 (by decide) 3⟩

/-- One HTTP response: status code and parsed JSON body (abstracted to a string). -/
structure HttpResponse where
  status : ℕ
  body : String
deriving DecidableEq

/-- The retryable statuses of ingest_cves.py:63: `(429, 500, 502, 503, 504)`. -/
def retryableStatus (s : ℕ) : Bool :=
  s = 429 || s = 500 || s = 502 || s = 503 || s = 504

/-- `response.raise_for_status()` raises exactly for client and server error
statuses, 400-599; other statuses (2xx, 3xx, ...) pass through. -/
def raisesForStatus (s : ℕ) : Bool := decide (400 ≤ s) && decide (s < 600)

/-- What `request_with_retry` can raise. -/
inductive RequestError where
  | httpError (status : ℕ)
  | retryExhausted
deriving DecidableEq

instance : DecidableEq (Except RequestError String) := fun x y =>
  match x, y with
  | .ok a, .ok b =>
    if h : a = b then .isTrue (congrArg Except.ok h)
    else .isFalse (fun hc => h (Except.ok.inj hc))
  | .error a, .error b =>
    if h : a = b then .isTrue (congrArg Except.error h)
    else .isFalse (fun hc => h (Except.error.inj hc))
  | .ok _, .error _ => .isFalse (fun hc => Except.noConfusion hc)
  | .error _, .ok _ => .isFalse (fun hc => Except.noConfusion hc)

/-- Observable outcome of `request_with_retry`: the returned body or the raised
error, the number of HTTP requests issued, and the sleeps performed (seconds). -/
structure RetryOutcome where
  result : Except RequestError String
  requests : ℕ
  sleeps : List ℕ
deriving DecidableEq

/-- The `for attempt in range(3)` loop of `request_with_retry`
(ingest_cves.py:60-68); `responses` gives the response to the request of each
attempt; falling off the loop is the `RuntimeError("Request retry exhausted")`. -/
def requestWithRetryLoop (responses : ℕ → HttpResponse) :
    List ℕ → ℕ → List ℕ → RetryOutcome
  | [], requests, sleeps => ⟨.error .retryExhausted, requests, sleeps⟩
  | attempt :: restAttempts, requests, sleeps =>
    let response := responses attempt
    if retryableStatus response.status && decide (attempt < 2) then
      requestWithRetryLoop responses restAttempts (requests + 1) (sleeps ++ [2 ^ attempt])
    else if raisesForStatus response.status then
      ⟨.error (.httpError response.status), requests + 1, sleeps⟩
    else
      ⟨.ok response.body, requests + 1, sleeps⟩

/-- `request_with_retry` (ingest_cves.py:60-68). -/
def request_with_retry (responses : ℕ → HttpResponse) : RetryOutcome :=
  requestWithRetryLoop responses [0, 1, 2] 0 []

/-- C5 (counterexample): a status that is neither 2xx nor retryable need not
raise: on a constant HTTP 304 response, `request_with_retry` returns the body
after a single request instead of raising on the first attempt. -/
theorem request_with_retry_non2xx_refuted :
    retryableStatus 304 = false ∧ ¬ (200 ≤ 304 ∧ 304 < 300) ∧
    request_with_retry (fun _ => ⟨304, "cached"⟩) =
      ⟨.ok "cached", 1, []⟩ := by
  decide

/-- C5 (amended): `request_with_retry` retries at most 2 additional times, only
when the status is one of {429, 500, 502, 503, 504}, sleeping `2^attempt`
seconds before each retry; any other status in 400-599 raises on the first
attempt without retrying, while a status outside 400-599 (even a non-2xx one)
returns the body without raising; after the retry budget is exhausted a
still-retryable status — always in 400-599 — also raises. -/
theorem request_with_retry_policy :
    (∀ responses : ℕ → HttpResponse,
      retryableStatus (responses 0).status = false →
      request_with_retry responses =
        ⟨if raisesForStatus (responses 0).status then
           .error (.httpError (responses 0).status)
         else .ok (responses 0).body, 1, []⟩) ∧
    (∀ responses : ℕ → HttpResponse,
      retryableStatus (responses 0).status = true →
      retryableStatus (responses 1).status = false →
      request_with_retry responses =
        ⟨if raisesForStatus (responses 1).status then
           .error (.httpError (responses 1).status)
         else .ok (responses 1).body, 2, [1]⟩) ∧
    (∀ responses : ℕ → HttpResponse,
      retryableStatus (responses 0).status = true →
      retryableStatus (responses 1).status = true →
      request_with_retry responses =
        ⟨if raisesForStatus (responses 2).status then
           .error (.httpError (responses 2).status)
         else .ok (responses 2).body, 3, [1, 2]⟩) ∧
    (∀ s : ℕ, retryableStatus s = true → raisesForStatus s = true) := by
  refine ⟨?_, ?_, ?_, ?_⟩
  · intro responses h0
    by_cases hr : raisesForStatus (responses 0).status = true
    all_goals simp [request_with_retry, requestWithRetryLoop, h0, hr]
  · intro responses h0 h1
    by_cases hr : raisesForStatus (responses 1).status = true
    all_goals simp [request_with_retry, requestWithRetryLoop, h0, h1, hr]
  · intro responses h0 h1
    by_cases hr : raisesForStatus (responses 2).status = true
    all_goals simp [request_with_retry, requestWithRetryLoop, h0, h1, hr]
  · intro s h
    simp [retryableStatus] at h
    simp [raisesForStatus]
    omega

/-- Witness for C5: three consecutive retryable statuses exhaust the budget
after 3 requests and sleeps of 1 and 2 seconds, then raise the HTTP error. -/
theorem request_with_retry_policy_witness :
    request_with_retry
        (fun n => if n = 0 then ⟨429, ""⟩ else if n = 1 then ⟨500, ""⟩ else ⟨503, "b"⟩) =
      ⟨.error (.httpError 503), 3, [1, 2]⟩ := by
  have h := request_with_retry_policy.2.2.1
    (fun n => if n = 0 then ⟨429, ""⟩ else if n = 1 then ⟨500, ""⟩ else ⟨503, "b"⟩)
    (by decide) (by decide)
  rw [h]
  decide

/-- One resolved association tuple
`(part, vendor, product, version, criteria, vulnerable)`. -/
structure CpeTuple where
  part : String
  vendor : String
  product : String
  version : String
  criteria : String
  vulnerable : Bool
deriving DecidableEq

/-- Lookup in the insertion-ordered association list modelling `parsed_by_criteria`. -/
def assocLookup (m : List (String × CpeTuple)) (k : String) : Option CpeTuple :=
  match m with
  | [] => none
  | (k2, v) :: rest => if k2 = k then some v else assocLookup rest k

/-- In-place value replacement at a key (Python dict assignment to an existing
key keeps its insertion position). -/
def assocUpdate (m : List (String × CpeTuple)) (k : String) (v : CpeTuple) :
    List (String × CpeTuple) :=
  match m with
  | [] => []
  | (k2, v2) :: rest =>
    if k2 = k then (k2, v) :: rest else (k2, v2) :: assocUpdate rest k v

/-- Processing of one `cpeMatch` entry against `parsed_by_criteria`
(ingest_cves.py:145-166): strip the criteria, parse it (skipping invalid ones),
then either insert the parsed tuple or OR the `vulnerable` flag into the
existing tuple for the same criteria string. -/
def cpeStep (m : List (String × CpeTuple)) (entry : CpeMatchEntry) :
    List (String × CpeTuple) :=
  let criteria := pyStrip entry.criteria
  match parse_cpe23 criteria with
  | none => m
  | some (part, vendor, product, version) =>
    match assocLookup m criteria with
    | none =>
      m ++ [(criteria,
        { part := part, vendor := vendor, product := product, version := version,
          criteria := criteria, vulnerable := entry.vulnerable })]
    | some existing =>
      assocUpdate m criteria
        { existing with vulnerable := existing.vulnerable || entry.vulnerable }

mutual

/-- The matches `walk_node` encounters in one node, in visit order: the node's
own `cpeMatch` list first, then its children depth-first (ingest_cves.py:142-172). -/
def collectNode : ConfigNode → List CpeMatchEntry
  | .mk cpeMatch children => cpeMatch ++ collectNodes children

/-- The matches encountered across a list of nodes, in visit order. -/
def collectNodes : List ConfigNode → List CpeMatchEntry
  | [] => []
  | n :: rest => collectNode n ++ collectNodes rest

end

/-- The matches encountered across all configuration groups, in visit order
(ingest_cves.py:174-182). -/
def collectConfigs (configs : List Configuration) : List CpeMatchEntry :=
  configs.foldl (fun acc cfg => acc ++ collectNodes cfg.nodes) []

/-- `extract_cpe_matches` (ingest_cves.py:135-184, identical copy in
utils/backfill_cpe_from_raw.py:51-99). The mutating dict of the Python walk
depends only on the order in which match entries are encountered, so the walk
is embedded as the fold of `cpeStep` over the visit-ordered entry list,
followed by `.values()` in insertion order. -/
def extract_cpe_matches (cve : CveDoc) : List CpeTuple :=
  ((collectConfigs cve.configurations).foldl cpeStep []).map (fun p => p.2)

/-- The document used for the concrete OR-merge instance: one configuration
group, one node, two match entries with the same criteria string — the first
not vulnerable, the second vulnerable. -/
def orMergeDoc : CveDoc :=
  { id := some "CVE-2024-1000", published := "2024-01-01T00:00:00.000",
    lastModified := "2024-01-02T00:00:00.000", sourceIdentifier := none,
    metrics := { cvssMetricV31 := [], cvssMetricV30 := [], cvssMetricV2 := [] },
    descriptions := [],
    configurations :=
      [{ nodes :=
          [ConfigNode.mk
            [{ criteria := "cpe:2.3:a:v:p:1.0:x:x", vulnerable := false },
             { criteria := "cpe:2.3:a:v:p:1.0:x:x", vulnerable := true }] []] }] }

/-- The key/tuple contribution of one match entry, if its criteria is valid:
the stripped criteria string and the tuple `cpeStep` would store for it. -/
def validOcc (entry : CpeMatchEntry) : Option (String × CpeTuple) :=
  let criteria := pyStrip entry.criteria
  (parse_cpe23 criteria).map (fun q =>
    (criteria,
     { part := q.1, vendor := q.2.1, product := q.2.2.1, version := q.2.2.2,
       criteria := criteria, vulnerable := entry.vulnerable }))

/-- Whether some occurrence in `l` is valid, keyed at `k`, and vulnerable. -/
def anyVulnAt (l : List CpeMatchEntry) (k : String) : Bool :=
  l.any (fun e =>
    match validOcc e with
    | some (k2, t) => k2 = k && t.vulnerable
    | none => false)

/-- Whether some occurrence in `l` is valid and keyed at `k`. -/
def hasValidAt (l : List CpeMatchEntry) (k : String) : Bool :=
  l.any (fun e =>
    match validOcc e with
    | some (k2, _) => decide (k2 = k)
    | none => false)

/-- The tuple stored for key `k` with parse result `q` and vulnerable flag `b`. -/
def mkTuple (k : String) (q : String × String × String × String) (b : Bool) : CpeTuple :=
  { part := q.1, vendor := q.2.1, product := q.2.2.1, version := q.2.2.2,
    criteria := k, vulnerable := b }

/-- Well-formedness of the `parsed_by_criteria` map: every stored tuple records
its own key as its criteria, and keys are distinct. -/
def wfMap (m : List (String × CpeTuple)) : Prop :=
  (∀ p ∈ m, p.2.criteria = p.1) ∧ (m.map (fun p => p.1)).Nodup

theorem validOcc_spec (e : CpeMatchEntry) (k : String) (t : CpeTuple)
    (h : validOcc e = some (k, t)) :
    t.criteria = k ∧ t.vulnerable = e.vulnerable ∧
      parse_cpe23 k = some (t.part, t.vendor, t.product, t.version) ∧
      t = mkTuple k (t.part, t.vendor, t.product, t.version) e.vulnerable := by
  unfold validOcc at h
  cases hp : parse_cpe23 (pyStrip e.criteria) with
  | none => simp [hp] at h
  | some q =>
    simp [hp] at h
    obtain ⟨hk, ht⟩ := h
    subst hk
    subst ht
    exact ⟨rfl, rfl, hp, rfl⟩

theorem cpeStep_eq (m : List (String × CpeTuple)) (e : CpeMatchEntry) :
    cpeStep m e =
      match validOcc e with
      | none => m
      | some (k, t) =>
        match assocLookup m k with
        | none => m ++ [(k, t)]
        | some existing =>
          assocUpdate m k
            { existing with vulnerable := existing.vulnerable || t.vulnerable } := by
  unfold cpeStep validOcc
  cases hp : parse_cpe23 (pyStrip e.criteria) with
  | none => simp [hp]
  | some q =>
    simp [hp]

theorem assocLookup_eq_none (m : List (String × CpeTuple)) (k : String) :
    assocLookup m k = none ↔ k ∉ m.map (fun p => p.1) := by
  induction m with
  | nil => simp [assocLookup]
  | cons p rest ih =>
    obtain ⟨k2, v⟩ := p
    by_cases h : k2 = k
    · subst h
      simp [assocLookup]
    · have hstep : assocLookup ((k2, v) :: rest) k = assocLookup rest k := by
        simp [assocLookup, h]
      rw [hstep, ih]
      simp only [List.map_cons, List.mem_cons]
      constructor
      · intro hn hc
        rcases hc with hc | hc
        · exact h hc.symm
        · exact hn hc
      · intro hn hk
        exact hn (Or.inr hk)

theorem assocLookup_append (m l2 : List (String × CpeTuple)) (k : String) :
    assocLookup (m ++ l2) k =
      match assocLookup m k with
      | some v => some v
      | none => assocLookup l2 k := by
  induction m with
  | nil => simp [assocLookup]
  | cons p rest ih =>
    obtain ⟨k2, v⟩ := p
    by_cases h : k2 = k
    · subst h
      simp [assocLookup]
    · simp [assocLookup, h, ih]

theorem assocLookup_some_mem (m : List (String × CpeTuple)) (k : String)
    (v : CpeTuple) (h : assocLookup m k = some v) : (k, v) ∈ m := by
  induction m with
  | nil => simp [assocLookup] at h
  | cons p rest ih =>
    obtain ⟨k2, v2⟩ := p
    by_cases hk : k2 = k
    · subst hk
      simp [assocLookup] at h
      subst h
      exact List.mem_cons_self _ _
    · simp [assocLookup, hk] at h
      exact List.mem_cons_of_mem _ (ih h)

theorem assocUpdate_lookup_self (m : List (String × CpeTuple)) (k : String)
    (v : CpeTuple) :
    assocLookup (assocUpdate m k v) k = (assocLookup m k).map (fun _ => v) := by
  induction m with
  | nil => simp [assocLookup, assocUpdate]
  | cons p rest ih =>
    obtain ⟨k2, v2⟩ := p
    by_cases h : k2 = k
    · subst h
      simp [assocLookup, assocUpdate]
    · simp [assocLookup, assocUpdate, h, ih]

theorem assocUpdate_lookup_other (m : List (String × CpeTuple)) (k k2 : String)
    (v : CpeTuple) (hne : k2 ≠ k) :
    assocLookup (assocUpdate m k v) k2 = assocLookup m k2 := by
  induction m with
  | nil => simp [assocUpdate]
  | cons p rest ih =>
    obtain ⟨k3, v3⟩ := p
    by_cases h3 : k3 = k
    · subst h3
      have h32 : k3 ≠ k2 := fun hc => hne (hc.symm.trans rfl)
      simp [assocUpdate, assocLookup, h32]
    · by_cases h32 : k3 = k2
      · subst h32
        simp [assocUpdate, assocLookup, h3]
      · simp [assocUpdate, assocLookup, h3, h32, ih]

theorem assocUpdate_keys (m : List (String × CpeTuple)) (k : String) (v : CpeTuple) :
    (assocUpdate m k v).map (fun p => p.1) = m.map (fun p => p.1) := by
  induction m with
  | nil => simp [assocUpdate]
  | cons p rest ih =>
    obtain ⟨k2, v2⟩ := p
    by_cases h : k2 = k
    · subst h
      simp [assocUpdate]
    · simp [assocUpdate, h, ih]

theorem assocUpdate_mem (m : List (String × CpeTuple)) (k : String) (v : CpeTuple)
    (p : String × CpeTuple) (hp : p ∈ assocUpdate m k v) : p ∈ m ∨ p = (k, v) := by
  induction m with
  | nil => simp [assocUpdate] at hp
  | cons q rest ih =>
    obtain ⟨k2, v2⟩ := q
    by_cases h : k2 = k
    · subst h
      simp [assocUpdate] at hp
      rcases hp with hp | hp
      · right; rw [hp]
      · left; exact List.mem_cons_of_mem _ hp
    · simp [assocUpdate, h] at hp
      rcases hp with hp | hp
      · left; rw [hp]; exact List.mem_cons_self _ _
      · rcases ih hp with hm | hv
        · left; exact List.mem_cons_of_mem _ hm
        · right; exact hv

theorem wfMap_cpeStep (m : List (String × CpeTuple)) (e : CpeMatchEntry)
    (hwf : wfMap m) : wfMap (cpeStep m e) := by
  rw [cpeStep_eq]
  cases hv : validOcc e with
  | none => exact hwf
  | some p =>
    obtain ⟨k, t⟩ := p
    obtain ⟨hcrit, _, _, _⟩ := validOcc_spec e k t hv
    dsimp only
    cases hl : assocLookup m k with
    | none =>
      refine ⟨?_, ?_⟩
      · intro q hq
        rcases List.mem_append.mp hq with hq | hq
        · exact hwf.1 q hq
        · simp at hq
          rw [hq]
          exact hcrit
      · rw [List.map_append]
        simp only [List.map_cons, List.map_nil]
        rw [List.nodup_append]
        refine ⟨hwf.2, List.nodup_singleton _, ?_⟩
        intro a ha hb
        simp at hb
        subst hb
        exact ((assocLookup_eq_none m _).mp hl) ha
    | some existing =>
      refine ⟨?_, ?_⟩
      · intro q hq
        rcases assocUpdate_mem _ _ _ _ hq with hq | hq
        · exact hwf.1 q hq
        · rw [hq]
          have := hwf.1 (k, existing) (assocLookup_some_mem m k existing hl)
          simpa using this
      · rw [assocUpdate_keys]
        exact hwf.2

theorem wfMap_foldl (l : List CpeMatchEntry) :
    ∀ m : List (String × CpeTuple), wfMap m → wfMap (l.foldl cpeStep m) := by
  induction l with
  | nil => intro m h; exact h
  | cons e rest ih =>
    intro m h
    exact ih (cpeStep m e) (wfMap_cpeStep m e h)

theorem assocLookup_mem_of_wf (m : List (String × CpeTuple)) (k : String)
    (v : CpeTuple) (hwf : wfMap m) (hmem : (k, v) ∈ m) : assocLookup m k = some v := by
  induction m with
  | nil => simp at hmem
  | cons p rest ih =>
    obtain ⟨k2, v2⟩ := p
    rcases List.mem_cons.mp hmem with heq | hmem2
    · have hk : k2 = k := (congrArg Prod.fst heq).symm
      have hv : v2 = v := (congrArg Prod.snd heq).symm
      subst hk
      simp [assocLookup, hv]
    · have hnd := hwf.2
      rw [List.map_cons] at hnd
      have hk2 : k2 ≠ k := by
        intro hc
        subst hc
        have hmemk : k2 ∈ rest.map (fun p => p.1) :=
          List.mem_map.mpr ⟨(k2, v), hmem2, rfl⟩
        exact (List.nodup_cons.mp hnd).1 hmemk
      have hwf2 : wfMap rest :=
        ⟨fun q hq => hwf.1 q (List.mem_cons_of_mem _ hq), (List.nodup_cons.mp hnd).2⟩
      simp [assocLookup, hk2]
      exact ih hwf2 hmem2

theorem foldl_cpeStep_lookup (l : List CpeMatchEntry) :
    ∀ (m : List (String × CpeTuple)) (k : String), wfMap m →
      assocLookup (l.foldl cpeStep m) k =
        match assocLookup m k with
        | some t => some { t with vulnerable := t.vulnerable || anyVulnAt l k }
        | none =>
          if hasValidAt l k then
            (parse_cpe23 k).map (fun q => mkTuple k q (anyVulnAt l k))
          else none := by
  induction l with
  | nil =>
    intro m k _
    cases hm : assocLookup m k with
    | none => simp [anyVulnAt, hasValidAt, hm]
    | some t => simp [anyVulnAt, hm]
  | cons e rest ih =>
    intro m k hwf
    rw [List.foldl_cons]
    cases hv : validOcc e with
    | none =>
      have hstep : cpeStep m e = m := by rw [cpeStep_eq, hv]
      have hany : anyVulnAt (e :: rest) k = anyVulnAt rest k := by
        simp [anyVulnAt, hv]
      have hhas : hasValidAt (e :: rest) k = hasValidAt rest k := by
        simp [hasValidAt, hv]
      rw [hstep, hany, hhas]
      exact ih m k hwf
    | some p =>
      obtain ⟨k2, t⟩ := p
      obtain ⟨hcrit, hvuln, hparse, htup⟩ := validOcc_spec e k2 t hv
      by_cases hk : k2 = k
      · subst hk
        have hany : anyVulnAt (e :: rest) k2 = (e.vulnerable || anyVulnAt rest k2) := by
          simp [anyVulnAt, hv, hvuln]
        have hhas : hasValidAt (e :: rest) k2 = true := by
          simp [hasValidAt, hv]
        cases hm : assocLookup m k2 with
        | none =>
          have hstep : cpeStep m e = m ++ [(k2, t)] := by
            rw [cpeStep_eq, hv]
            dsimp only
            rw [hm]
          have hwf2 : wfMap (m ++ [(k2, t)]) := by
            have hw := wfMap_cpeStep m e hwf
            rwa [hstep] at hw
          have hlook : assocLookup (m ++ [(k2, t)]) k2 = some t := by
            rw [assocLookup_append, hm]
            simp [assocLookup]
          rw [hstep, ih _ k2 hwf2, hlook]
          dsimp only
          rw [hhas, hany, hparse]
          simp only [if_true, Option.map_some']
          rw [htup]
          simp [mkTuple, hvuln, Bool.or_assoc]
        | some existing =>
          have hstep : cpeStep m e =
              assocUpdate m k2
                { existing with vulnerable := existing.vulnerable || t.vulnerable } := by
            rw [cpeStep_eq, hv]
            dsimp only
            rw [hm]
          have hwf2 : wfMap (cpeStep m e) := wfMap_cpeStep m e hwf
          rw [hstep] at hwf2
          have hlook :
              assocLookup
                (assocUpdate m k2
                  { existing with vulnerable := existing.vulnerable || t.vulnerable }) k2 =
                some { existing with vulnerable := existing.vulnerable || t.vulnerable } := by
            rw [assocUpdate_lookup_self, hm]
            rfl
          rw [hstep, ih _ k2 hwf2, hlook]
          dsimp only
          rw [hany]
          simp [hvuln, Bool.or_assoc]
      · have hany : anyVulnAt (e :: rest) k = anyVulnAt rest k := by
          simp [anyVulnAt, hv, hk]
        have hhas : hasValidAt (e :: rest) k = hasValidAt rest k := by
          simp [hasValidAt, hv, hk]
        have hwf2 : wfMap (cpeStep m e) := wfMap_cpeStep m e hwf
        have hlook : assocLookup (cpeStep m e) k = assocLookup m k := by
          rw [cpeStep_eq, hv]
          dsimp only
          cases hm : assocLookup m k2 with
          | none =>
            rw [assocLookup_append]
            cases hmk : assocLookup m k with
            | none => simp [assocLookup, hk]
            | some v => simp
          | some ex => exact assocUpdate_lookup_other m k2 k _ (fun hc => hk hc.symm)
        rw [hany, hhas, ih _ k hwf2, hlook]

theorem wf_values_filter_length (k : String) :
    ∀ m : List (String × CpeTuple), wfMap m →
      ((m.map (fun p => p.2)).filter (fun t => t.criteria = k)).length ≤ 1 := by
  intro m
  induction m with
  | nil => intro _; simp
  | cons p rest ih =>
    obtain ⟨k2, v⟩ := p
    intro hwf
    have hv2 : v.criteria = k2 := by
      have := hwf.1 (k2, v) (List.mem_cons_self _ _)
      simpa using this
    have hnd := hwf.2
    rw [List.map_cons] at hnd
    have hwfr : wfMap rest :=
      ⟨fun q hq => hwf.1 q (List.mem_cons_of_mem _ hq), (List.nodup_cons.mp hnd).2⟩
    rw [List.map_cons]
    by_cases hcrit : v.criteria = k
    · rw [List.filter_cons_of_pos (by simp [hcrit])]
      have hempty : (rest.map (fun p => p.2)).filter (fun t => t.criteria = k) = [] := by
        rw [List.filter_eq_nil_iff]
        intro t ht
        simp only [List.mem_map] at ht
        obtain ⟨q, hq, hqt⟩ := ht
        simp only [decide_eq_true_eq]
        intro hc
        apply (List.nodup_cons.mp hnd).1
        have h1 : q.2.criteria = q.1 := hwf.1 q (List.mem_cons_of_mem _ hq)
        refine List.mem_map.mpr ⟨q, hq, ?_⟩
        rw [← h1, hqt, hc, ← hcrit, hv2]
      rw [hempty]
      simp
    · rw [List.filter_cons_of_neg (by simp [hcrit])]
      exact ih hwfr

/-- The single tuple the OR-merge instance resolves to. -/
def orMergeTuple : CpeTuple :=
  { part := "a", vendor := "v", product := "p", version := "1.0",
    criteria := "cpe:2.3:a:v:p:1.0:x:x", vulnerable := true }

/-- C6: `extract_cpe_matches` outputs at most one association per criteria
string, and the `vulnerable` flag of every output tuple is the logical OR of
the flags of all valid occurrences of that criteria in the document's
configuration tree; in particular `orMergeDoc`, whose two match entries share
one criteria with `vulnerable=false` then `vulnerable=true`, resolves to the
single tuple `orMergeTuple` with `vulnerable=true`. -/
theorem extract_cpe_matches_or_merge :
    (∀ (cve : CveDoc) (k : String),
      ((extract_cpe_matches cve).filter (fun t => t.criteria = k)).length ≤ 1) ∧
    (∀ (cve : CveDoc) (t : CpeTuple), t ∈ extract_cpe_matches cve →
      t.vulnerable = anyVulnAt (collectConfigs cve.configurations) t.criteria) ∧
    extract_cpe_matches orMergeDoc = [orMergeTuple] := by
  have hwfnil : wfMap ([] : List (String × CpeTuple)) := ⟨by simp, by simp⟩
  refine ⟨?_, ?_, ?_⟩
  · intro cve k
    exact wf_values_filter_length k _
      (wfMap_foldl (collectConfigs cve.configurations) [] hwfnil)
  · intro cve t hmem
    have hwfM := wfMap_foldl (collectConfigs cve.configurations) [] hwfnil
    simp only [extract_cpe_matches, List.mem_map] at hmem
    obtain ⟨p, hp, hpt⟩ := hmem
    have hkey : p.2.criteria = p.1 := hwfM.1 p hp
    have hlook : assocLookup ((collectConfigs cve.configurations).foldl cpeStep []) p.1 =
        some p.2 := assocLookup_mem_of_wf _ _ _ hwfM (by

      rcases p with ⟨pk, pv⟩
      exact hp)
    rw [foldl_cpeStep_lookup _ [] p.1 hwfnil] at hlook
    simp only [assocLookup] at hlook
    subst hpt
    rw [hkey]
    by_cases hhas : hasValidAt (collectConfigs cve.configurations) p.1 = true
    · rw [if_pos hhas] at hlook
      cases hq : parse_cpe23 p.1 with
      | none => rw [hq] at hlook; simp at hlook
      | some q =>
        rw [hq] at hlook
        simp only [Option.map_some', Option.some.injEq] at hlook
        rw [← hlook]
        rfl
    · rw [if_neg hhas] at hlook
      simp at hlook
  · have hstrip : pyStrip "cpe:2.3:a:v:p:1.0:x:x" = "cpe:2.3:a:v:p:1.0:x:x" := by decide
    have hparse : parse_cpe23 "cpe:2.3:a:v:p:1.0:x:x" = some ("a", "v", "p", "1.0") := by
      decide
    simp [extract_cpe_matches, orMergeDoc, orMergeTuple, collectConfigs, collectNodes,
      collectNode, cpeStep, assocLookup, assocUpdate, hstrip, hparse]

/-- Witness for C6: the OR-merged tuple of the concrete document indeed carries
the OR of its two occurrences' flags. -/
theorem extract_cpe_matches_or_merge_witness :
    orMergeTuple.vulnerable =
      anyVulnAt (collectConfigs orMergeDoc.configurations) orMergeTuple.criteria :=
  extract_cpe_matches_or_merge.2.1 orMergeDoc orMergeTuple
    (by rw [extract_cpe_matches_or_merge.2.2]; exact List.mem_singleton.mpr rfl)

/-- Python `str.endswith` (character-level). -/
def pyEndsWith (s suf : String) : Bool := suf.data.isSuffixOf s.data

/-- `parse_nvd_ts` (ingest_cves.py:38-41): datetime values are embedded as their
normalized ISO strings, so the function rewrites a trailing `Z` to `+00:00`
exactly as the code does before `fromisoformat`; the `astimezone(utc)` step is
the identity in this representation. -/
def parse_nvd_ts (value : String) : String :=
  if pyEndsWith value "Z" then ⟨value.data.dropLast⟩ ++ "+00:00" else value

/-- `extract_english_description_from_cve` (ingest_cves.py:85-92): the first
description entry whose language tag is `en`, else `""`. -/
def extract_english_description_from_cve (cve : CveDoc) : String :=
  match cve.descriptions.find? (fun d => d.lang = "en") with
  | some d => d.value
  | none => ""

/-- One raw feed item; `item.get("cve", {})` is the `cve` field and the whole
item is what `Json(item)` persists into the `raw` column. -/
structure CveItem where
  cve : CveDoc

/-- One row of the `cve` table (the `updated_at` column, set to `now()` on every
write, carries no information any claim depends on and is omitted). -/
structure CveRow where
  id : String
  published_at : String
  last_modified_at : String
  cvss_score : Option ℚ
  cvss_version : Option String
  severity : Option String
  impact_type : String
  classification_version : String
  source_identifier : Option String
  raw : CveItem

/-- One row of the `cve_cpe` table. -/
structure CveCpeRow where
  cve_id : String
  part : String
  vendor : String
  product : String
  version : String
  criteria : String
  vulnerable : Bool
deriving DecidableEq

/-- The database state the ingestion writes to. -/
structure Db where
  cve : List CveRow
  cve_cpe : List CveCpeRow

/-- `INSERT ... ON CONFLICT (id) DO UPDATE` on the `cve` table
(ingest_cves.py:188-213): replace the row with the same id, else append. -/
def upsertCveRow (table : List CveRow) (row : CveRow) : List CveRow :=
  if table.any (fun r => r.id = row.id) then
    table.map (fun r => if r.id = row.id then row else r)
  else table ++ [row]

/-- One iteration of the `upsert_cves` loop (ingest_cves.py:217-273): skip items
with a falsy id; otherwise upsert the normalized row, delete the item's
`cve_cpe` rows and insert the freshly resolved ones (whose criteria are unique
within one batch, so the `ON CONFLICT (cve_id, criteria)` clause cannot fire
after the delete). Returns the new state and the count increment. -/
def upsertOne (db : Db) (item : CveItem) : Db × ℕ :=
  let cve := item.cve
  match cve.id with
  | none => (db, 0)
  | some cve_id =>
    if cve_id = "" then (db, 0)
    else
      let scv := extract_cvss cve
      let row : CveRow :=
        { id := cve_id,
          published_at := parse_nvd_ts cve.published,
          last_modified_at := parse_nvd_ts cve.lastModified,
          cvss_score := scv.1, cvss_version := scv.2.1, severity := scv.2.2,
          impact_type := classify_impact_type (extract_english_description_from_cve cve),
          classification_version := IMPACT_CLASSIFICATION_VERSION,
          source_identifier := cve.sourceIdentifier,
          raw := item }
      let cpe_rows := extract_cpe_matches cve
      ({ cve := upsertCveRow db.cve row,
         cve_cpe := db.cve_cpe.filter (fun r => r.cve_id ≠ cve_id) ++
           cpe_rows.map (fun t =>
             { cve_id := cve_id, part := t.part, vendor := t.vendor,
               product := t.product, version := t.version, criteria := t.criteria,
               vulnerable := t.vulnerable }) }, 1)

/-- `upsert_cves` (ingest_cves.py:187-275): process the page's items in order,
returning the final state and the upserted count. -/
def upsert_cves (db : Db) (vulnerabilities : List CveItem) : Db × ℕ :=
  vulnerabilities.foldl
    (fun acc item =>
      let r := upsertOne acc.1 item
      (r.1, acc.2 + r.2))
    (db, 0)

theorem map_self_of_eq {α : Type} (l : List α) (f : α → α) (h : ∀ x ∈ l, f x = x) :
    l.map f = l := by
  induction l with
  | nil => rfl
  | cons a rest ih =>
    rw [List.map_cons, h a (List.mem_cons_self _ _),
      ih (fun x hx => h x (List.mem_cons_of_mem _ hx))]

theorem filter_idem_self {α : Type} (p : α → Bool) (l : List α) :
    (l.filter p).filter p = l.filter p := by
  induction l with
  | nil => rfl
  | cons a rest ih =>
    by_cases ha : p a = true
    · rw [List.filter_cons_of_pos ha, List.filter_cons_of_pos ha, ih]
    · rw [List.filter_cons_of_neg ha, ih]

theorem upsertCveRow_idem (t : List CveRow) (row : CveRow) :
    upsertCveRow (upsertCveRow t row) row = upsertCveRow t row := by
  by_cases h : t.any (fun r => r.id = row.id) = true
  · simp only [upsertCveRow, if_pos h]
    have hany2 : (t.map (fun r => if r.id = row.id then row else r)).any
        (fun r => r.id = row.id) = true := by
      simp only [List.any_eq_true, decide_eq_true_eq] at h ⊢
      obtain ⟨r, hr, hid⟩ := h
      refine ⟨row, List.mem_map.mpr ⟨r, hr, ?_⟩, rfl⟩
      simp [hid]
    rw [if_pos hany2, List.map_map]
    apply List.map_congr_left
    intro r _
    simp only [Function.comp]
    by_cases hid : r.id = row.id <;> simp [hid]
  · simp only [upsertCveRow, if_neg h]
    have hany2 : ((t ++ [row]).any (fun r => r.id = row.id)) = true := by
      simp
    rw [if_pos hany2, List.map_append]
    have ht : t.map (fun r => if r.id = row.id then row else r) = t := by
      apply map_self_of_eq
      intro r hr
      have : ¬ r.id = row.id := by
        intro hc
        exact h (List.any_eq_true.mpr ⟨r, hr, by simp [hc]⟩)
      simp [this]
    rw [ht]
    simp

theorem upsertCveRow_filter_eq (t : List CveRow) (row : CveRow)
    (hnd : (t.map (fun r => r.id)).Nodup) :
    (upsertCveRow t row).filter (fun r => r.id = row.id) = [row] := by
  by_cases h : t.any (fun r => r.id = row.id) = true
  · simp only [upsertCveRow, if_pos h]
    have hrep : ∀ u : List CveRow,
        (u.map (fun r => if r.id = row.id then row else r)).filter
            (fun r => r.id = row.id) =
          List.replicate (u.countP (fun r => r.id = row.id)) row := by
      intro u
      induction u with
      | nil => rfl
      | cons a rest ihu =>
        by_cases ha : a.id = row.id
        · rw [List.map_cons, if_pos ha, List.filter_cons_of_pos (by simp),
            List.countP_cons_of_pos _ _ (by simp [ha]), List.replicate_succ, ihu]
        · rw [List.map_cons, if_neg ha, List.filter_cons_of_neg (by simp [ha]),
            List.countP_cons_of_neg _ _ (by simp [ha]), ihu]
    rw [hrep]
    have hcount : t.countP (fun r => r.id = row.id) = 1 := by
      have hle : (t.map (fun r => r.id)).count row.id ≤ 1 :=
        List.nodup_iff_count_le_one.mp hnd row.id
      have heq : (t.map (fun r => r.id)).count row.id =
          t.countP (fun r => r.id = row.id) := by
        rw [List.count_eq_countP, List.countP_map]
        apply List.countP_congr
        intro r _
        simp [Function.comp, beq_eq_decide]
      rw [heq] at hle
      have hpos : 0 < t.countP (fun r => r.id = row.id) := by
        simp only [List.any_eq_true] at h
        obtain ⟨r, hr, hid⟩ := h
        exact List.countP_pos_iff.mpr ⟨r, hr, hid⟩
      omega
    rw [hcount]
    rfl
  · simp only [upsertCveRow, if_neg h]
    rw [List.filter_append]
    have ht : t.filter (fun r => r.id = row.id) = [] := by
      rw [List.filter_eq_nil_iff]
      intro r hr hc
      exact h (List.any_eq_true.mpr ⟨r, hr, hc⟩)
    rw [ht]
    simp

theorem upsert_cves_single (db : Db) (item : CveItem) :
    (upsert_cves db [item]).1 = (upsertOne db item).1 := by
  simp [upsert_cves]

/-- C3: ingesting the same raw item twice through `upsert_cves` is idempotent:
the second ingestion leaves the database state unchanged, so the state holds
exactly one `cve` row for the item's id and the same `cve_cpe` row set for that
id as a single ingestion. -/
theorem upsert_cves_idempotent :
    ∀ (db : Db) (item : CveItem) (cid : String),
      item.cve.id = some cid → cid ≠ "" →
      (db.cve.map (fun r => r.id)).Nodup →
      (upsert_cves (upsert_cves db [item]).1 [item]).1 = (upsert_cves db [item]).1 ∧
      ((upsert_cves (upsert_cves db [item]).1 [item]).1.cve.filter
          (fun r => r.id = cid)).length = 1 ∧
      (upsert_cves (upsert_cves db [item]).1 [item]).1.cve_cpe.filter
          (fun r => r.cve_id = cid) =
        (upsert_cves db [item]).1.cve_cpe.filter (fun r => r.cve_id = cid) := by
  intro db item cid hid hne hnd
  simp only [upsert_cves_single]
  have hone : ∀ d : Db, (upsertOne d item).1 =
      { cve := upsertCveRow d.cve
          { id := cid,
            published_at := parse_nvd_ts item.cve.published,
            last_modified_at := parse_nvd_ts item.cve.lastModified,
            cvss_score := (extract_cvss item.cve).1,
            cvss_version := (extract_cvss item.cve).2.1,
            severity := (extract_cvss item.cve).2.2,
            impact_type :=
              classify_impact_type (extract_english_description_from_cve item.cve),
            classification_version := IMPACT_CLASSIFICATION_VERSION,
            source_identifier := item.cve.sourceIdentifier,
            raw := item },
        cve_cpe := d.cve_cpe.filter (fun r => r.cve_id ≠ cid) ++
          (extract_cpe_matches item.cve).map (fun t =>
            { cve_id := cid, part := t.part, vendor := t.vendor,
              product := t.product, version := t.version, criteria := t.criteria,
              vulnerable := t.vulnerable }) } := by
    intro d
    simp only [upsertOne, hid]
    rw [if_neg hne]
  have hnewnil :
      ((extract_cpe_matches item.cve).map (fun t =>
          ({ cve_id := cid, part := t.part, vendor := t.vendor,
             product := t.product, version := t.version, criteria := t.criteria,
             vulnerable := t.vulnerable } : CveCpeRow))).filter
        (fun r => r.cve_id ≠ cid) = [] := by
    rw [List.filter_eq_nil_iff]
    intro r hr
    obtain ⟨t, _, ht⟩ := List.mem_map.mp hr
    rw [← ht]
    simp
  have hstate : (upsertOne (upsertOne db item).1 item).1 = (upsertOne db item).1 := by
    simp only [hone]
    refine congrArg₂ Db.mk ?_ ?_
    · exact upsertCveRow_idem _ _
    · dsimp only
      rw [List.filter_append, filter_idem_self, hnewnil]
      simp
  refine ⟨hstate, ?_, by rw [hstate]⟩
  rw [hstate, hone]
  have hfilter := upsertCveRow_filter_eq db.cve
    { id := cid,
      published_at := parse_nvd_ts item.cve.published,
      last_modified_at := parse_nvd_ts item.cve.lastModified,
      cvss_score := (extract_cvss item.cve).1,
      cvss_version := (extract_cvss item.cve).2.1,
      severity := (extract_cvss item.cve).2.2,
      impact_type :=
        classify_impact_type (extract_english_description_from_cve item.cve),
      classification_version := IMPACT_CLASSIFICATION_VERSION,
      source_identifier := item.cve.sourceIdentifier,
      raw := item } hnd
  dsimp only
  rw [hfilter]
  rfl

/-- The concrete item used by the idempotence witness. -/
def upsertDemoItem : CveItem :=
  { cve :=
    { id := some "CVE-2024-2000", published := "2024-03-01T00:00:00.000Z",
      lastModified := "2024-03-02T00:00:00.000", sourceIdentifier := some "nvd",
      metrics := { cvssMetricV31 := [], cvssMetricV30 := [], cvssMetricV2 := [] },
      descriptions := [{ lang := "en", value := "A sql injection bug" }],
      configurations :=
        [{ nodes :=
            [ConfigNode.mk [{ criteria := "cpe:2.3:a:demo:app:1.0:x:x",
                              vulnerable := true }] []] }] } }

/-- Witness for C3: re-ingesting `upsertDemoItem` into an empty database leaves
the state unchanged, with exactly one `cve` row and a stable `cve_cpe` set. -/
theorem upsert_cves_idempotent_witness :
    (upsert_cves (upsert_cves ⟨[], []⟩ [upsertDemoItem]).1 [upsertDemoItem]).1 =
      (upsert_cves ⟨[], []⟩ [upsertDemoItem]).1 ∧
    ((upsert_cves (upsert_cves ⟨[], []⟩ [upsertDemoItem]).1 [upsertDemoItem]).1.cve.filter
        (fun r => r.id = "CVE-2024-2000")).length = 1 ∧
    (upsert_cves (upsert_cves ⟨[], []⟩ [upsertDemoItem]).1 [upsertDemoItem]).1.cve_cpe.filter
        (fun r => r.cve_id = "CVE-2024-2000") =
      (upsert_cves ⟨[], []⟩ [upsertDemoItem]).1.cve_cpe.filter
        (fun r => r.cve_id = "CVE-2024-2000") :=
  upsert_cves_idempotent ⟨[], []⟩ upsertDemoItem "CVE-2024-2000" rfl (by decide) (by simp)

/-- The window loop of `run_incremental` (ingest_cves.py:464-467): accumulate
the counts returned by `fetch_window` until a window raises; `fetch` gives each
window's outcome (counts, or the raised exception's message). -/
structure ProcResult where
  requested : ℕ
  upserted : ℕ
  err : Option String
deriving DecidableEq

def processWindows (fetch : ℤ × ℤ → Except String (ℕ × ℕ)) :
    List (ℤ × ℤ) → ℕ → ℕ → ProcResult
  | [], req, ups => ⟨req, ups, none⟩
  | w :: rest, req, ups =>
    match fetch w with
    | .ok (r, u) => processWindows fetch rest (req + r) (ups + u)
    | .error msg => ⟨req, ups, some msg⟩

/-- Whether `fetch_window` completes without raising on window `w`. -/
def fetchOk (fetch : ℤ × ℤ → Except String (ℕ × ℕ)) (w : ℤ × ℤ) : Bool :=
  match fetch w with
  | .ok _ => true
  | .error _ => false

/-- Requested count of a successful window (0 for a failed one). -/
def reqOf (fetch : ℤ × ℤ → Except String (ℕ × ℕ)) (w : ℤ × ℤ) : ℕ :=
  match fetch w with
  | .ok (r, _) => r
  | .error _ => 0

/-- Upserted count of a successful window (0 for a failed one). -/
def upsOf (fetch : ℤ × ℤ → Except String (ℕ × ℕ)) (w : ℤ × ℤ) : ℕ :=
  match fetch w with
  | .ok (_, u) => u
  | .error _ => 0

/-- The message of the first failing window, if any. -/
def firstErrMsg (fetch : ℤ × ℤ → Except String (ℕ × ℕ)) (ws : List (ℤ × ℤ)) :
    Option String :=
  match ws.dropWhile (fetchOk fetch) with
  | [] => none
  | w :: _ =>
    match fetch w with
    | .ok _ => none
    | .error msg => some msg

/-- Observable outcome of one `run_incremental` invocation: the checkpoint row
after the run, the terminal job-record fields, how often `set_checkpoint` and
`finish_job_log` ran, and the re-raised exception if any. -/
structure IncResult where
  checkpointAfter : Option ℤ
  jobStatus : String
  jobError : Option String
  jobRequested : ℕ
  jobUpserted : ℕ
  jobFailed : ℕ
  setCheckpointCalls : ℕ
  finishJobCalls : ℕ
  raised : Option String
deriving DecidableEq

/-- `run_incremental` (ingest_cves.py:431-489): the checkpoint read, the
default lookback when none exists, the 1-hour overlap, the window loop, and the
success path (`set_checkpoint(end)` then `finish_job_log("success", ...)`)
versus the failure path (`finish_job_log("failed", ...)` with the exception's
message, then re-raise). `none` when the window planner never terminates. -/
def run_incremental (fetch : ℤ × ℤ → Except String (ℕ × ℕ))
    (checkpoint0 : Option ℤ) (now days : ℤ) : Option IncResult :=
  let checkpoint := checkpoint0.getD (now - timedeltaDays days)
  let start := checkpoint - timedeltaHours 1
  match chunk_ranges start now days with
  | none => none
  | some ws =>
    let r := processWindows fetch ws 0 0
    match r.err with
    | none =>
      some { checkpointAfter := some now, jobStatus := "success", jobError := none,
             jobRequested := r.requested, jobUpserted := r.upserted, jobFailed := 0,
             setCheckpointCalls := 1, finishJobCalls := 1, raised := none }
    | some msg =>
      some { checkpointAfter := checkpoint0, jobStatus := "failed",
             jobError := some msg, jobRequested := r.requested,
             jobUpserted := r.upserted, jobFailed := 1,
             setCheckpointCalls := 0, finishJobCalls := 1, raised := some msg }

theorem processWindows_spec (fetch : ℤ × ℤ → Except String (ℕ × ℕ)) :
    ∀ (ws : List (ℤ × ℤ)) (a b : ℕ),
      processWindows fetch ws a b =
        ⟨a + ((ws.takeWhile (fetchOk fetch)).map (reqOf fetch)).sum,
         b + ((ws.takeWhile (fetchOk fetch)).map (upsOf fetch)).sum,
         firstErrMsg fetch ws⟩ := by
  intro ws
  induction ws with
  | nil => intro a b; simp [processWindows, firstErrMsg]
  | cons w rest ih =>
    intro a b
    cases hw : fetch w with
    | ok p =>
      obtain ⟨r, u⟩ := p
      have hok : fetchOk fetch w = true := by simp [fetchOk, hw]
      have hstep : processWindows fetch (w :: rest) a b =
          processWindows fetch rest (a + r) (b + u) := by
        simp [processWindows, hw]
      have htw : List.takeWhile (fetchOk fetch) (w :: rest) =
          w :: List.takeWhile (fetchOk fetch) rest := by
        simp [List.takeWhile_cons, hok]
      have hdw : firstErrMsg fetch (w :: rest) = firstErrMsg fetch rest := by
        simp [firstErrMsg, List.dropWhile_cons, hok]
      have hr : reqOf fetch w = r := by simp [reqOf, hw]
      have hu : upsOf fetch w = u := by simp [upsOf, hw]
      rw [hstep, ih, htw, hdw, List.map_cons, List.map_cons, List.sum_cons,
        List.sum_cons, hr, hu, Nat.add_assoc, Nat.add_assoc]
    | error msg =>
      have hok : fetchOk fetch w = false := by simp [fetchOk, hw]
      simp [processWindows, hw, firstErrMsg, List.takeWhile_cons,
        List.dropWhile_cons, hok]

theorem firstErrMsg_eq_none_iff (fetch : ℤ × ℤ → Except String (ℕ × ℕ)) :
    ∀ ws : List (ℤ × ℤ),
      firstErrMsg fetch ws = none ↔ ∀ w ∈ ws, fetchOk fetch w = true := by
  intro ws
  induction ws with
  | nil => simp [firstErrMsg]
  | cons w rest ih =>
    by_cases hok : fetchOk fetch w = true
    · have hdw : firstErrMsg fetch (w :: rest) = firstErrMsg fetch rest := by
        simp [firstErrMsg, List.dropWhile_cons, hok]
      rw [hdw, ih]
      constructor
      · intro h x hx
        rcases List.mem_cons.mp hx with hx | hx
        · rw [hx]; exact hok
        · exact h x hx
      · intro h x hx
        exact h x (List.mem_cons_of_mem _ hx)
    · have hokf : fetchOk fetch w = false := by simpa using hok
      have hne : firstErrMsg fetch (w :: rest) ≠ none := by
        unfold firstErrMsg
        rw [List.dropWhile_cons, if_neg (by simp [hokf])]
        dsimp only
        cases hw : fetch w with
        | ok p => simp [fetchOk, hw] at hokf
        | error m => simp
      constructor
      · intro h
        exact absurd h hne
      · intro h
        exact absurd (h w (List.mem_cons_self _ _)) (by simp [hokf])

/-- C2: whenever an incremental run's planning succeeds and some window raises,
the run never calls `set_checkpoint` (the checkpoint after the run equals its
value before), the job record is finished exactly once with status `failed` and
the first failing window's exception message, and the accumulated counts cover
exactly the windows completed before the failure; the checkpoint is advanced to
the run's end instant `now` only when every window completes without error. -/
theorem run_incremental_checkpoint :
    ∀ (fetch : ℤ × ℤ → Except String (ℕ × ℕ)) (checkpoint0 : Option ℤ)
      (now days : ℤ) (ws : List (ℤ × ℤ)) (res : IncResult),
      chunk_ranges (checkpoint0.getD (now - timedeltaDays days) - timedeltaHours 1)
          now days = some ws →
      run_incremental fetch checkpoint0 now days = some res →
      ((∃ w ∈ ws, fetchOk fetch w = false) →
        res.setCheckpointCalls = 0 ∧
        res.checkpointAfter = checkpoint0 ∧
        res.finishJobCalls = 1 ∧
        res.jobStatus = "failed" ∧
        res.jobError = firstErrMsg fetch ws ∧
        res.raised = firstErrMsg fetch ws ∧
        res.jobRequested = ((ws.takeWhile (fetchOk fetch)).map (reqOf fetch)).sum ∧
        res.jobUpserted = ((ws.takeWhile (fetchOk fetch)).map (upsOf fetch)).sum) ∧
      ((∀ w ∈ ws, fetchOk fetch w = true) →
        res.checkpointAfter = some now ∧ res.setCheckpointCalls = 1 ∧
        res.jobStatus = "success" ∧ res.finishJobCalls = 1) := by
  intro fetch cp0 now days ws res hws hrun
  unfold run_incremental at hrun
  dsimp only at hrun
  rw [hws] at hrun
  dsimp only at hrun
  rw [processWindows_spec] at hrun
  simp only [Nat.zero_add] at hrun
  cases herr : firstErrMsg fetch ws with
  | none =>
    rw [herr] at hrun
    simp only [Option.some.injEq] at hrun
    subst hrun
    constructor
    · intro hfail
      obtain ⟨w, hw, hwf⟩ := hfail
      have := (firstErrMsg_eq_none_iff fetch ws).mp herr w hw
      rw [this] at hwf
      exact absurd hwf (by simp)
    · intro _
      exact ⟨rfl, rfl, rfl, rfl⟩
  | some m =>
    rw [herr] at hrun
    simp only [Option.some.injEq] at hrun
    subst hrun
    constructor
    · intro _
      exact ⟨rfl, rfl, rfl, rfl, rfl, rfl, rfl, rfl⟩
    · intro hall
      have := (firstErrMsg_eq_none_iff fetch ws).mpr hall
      rw [this] at herr
      exact absurd herr (by simp)

/-- The window-fetch oracle of the C2 witness: the window starting at hour 48
(the second of three) raises, every other window succeeds with counts (5, 4). -/
def incrDemoFetch : ℤ × ℤ → Except String (ℕ × ℕ) :=
  fun w => if w.1 = 48 then .error "boom" else .ok (5, 4)

/-- The three windows of the C2 witness run. -/
def incrDemoWindows : List (ℤ × ℤ) := [(24, 48), (48, 72), (72, 84)]

/-- The observable outcome of the C2 witness run. -/
def incrDemoRes : IncResult :=
  { checkpointAfter := some 25, jobStatus := "failed", jobError := some "boom",
    jobRequested := 5, jobUpserted := 4, jobFailed := 1,
    setCheckpointCalls := 0, finishJobCalls := 1, raised := some "boom" }

/-- Witness for C2: a run with checkpoint 25, `now` = 84 and a 1-day window in
which the second of three windows raises keeps the checkpoint at 25, never
calls `set_checkpoint`, finishes the job once as failed with message `boom`,
and counts only the first window's 5 requested / 4 upserted items. -/
theorem run_incremental_checkpoint_witness :
    incrDemoRes.setCheckpointCalls = 0 ∧
    incrDemoRes.checkpointAfter = some 25 ∧
    incrDemoRes.finishJobCalls = 1 ∧
    incrDemoRes.jobStatus = "failed" ∧
    incrDemoRes.jobError = firstErrMsg incrDemoFetch incrDemoWindows ∧
    incrDemoRes.raised = firstErrMsg incrDemoFetch incrDemoWindows ∧
    incrDemoRes.jobRequested =
      ((incrDemoWindows.takeWhile (fetchOk incrDemoFetch)).map
        (reqOf incrDemoFetch)).sum ∧
    incrDemoRes.jobUpserted =
      ((incrDemoWindows.takeWhile (fetchOk incrDemoFetch)).map
        (upsOf incrDemoFetch)).sum :=
  (run_incremental_checkpoint incrDemoFetch (some 25) 84 1 incrDemoWindows incrDemoRes
    (by decide) (by decide)).1 ⟨(48, 72), by decide, by decide⟩
